import Mathlib

/-!
Verification development for the tracewrap repository.

Part 1 embeds the runtime Trace Recorder (package `tracer`, file with
`RecordEntry` / `RecordExit` / `DumpCallGraphDOT` and friends) as pure state
transformers over an explicit recorder state.  External probe readings
(wall-clock time, memory, CPU load, ...) are passed in as arguments, since in
the Go source they are point-in-time reads performed while the lock is held.
Log output (the `logger.Printf` calls) is modelled as an append-only list of
structured log events carried in the state.

Part 2 embeds the build-time Instrumentation Engine's return-statement
rewrite (`transformReturnsInBlock` / `transformReturnsInStmt` /
`transformReturnStmt` in `pkg/instrument/ast.go`) over a deep embedding of
the statement/expression fragment of Go that the rewrite traverses, together
with an executable semantics used to compare returned values.
-/

namespace Tracewrap

/-- TraceRecord mirrors the Go struct `tracer.TraceRecord` field for field.
`int64` fields become `Int`, `uint64`/`uint32` become `Nat`, `time.Time` and
`time.Duration` become `Int` (nanoseconds), `map[string]string` becomes an
association list, `interface{}` panic values become `Option String` (the
recorder never inspects them), and `float64 SystemCPULoad` becomes an opaque
`Int` stand-in (no arithmetic is ever performed on it). -/
structure TraceRecord where
  uniqueID : Int := 0
  functionName : String := ""
  callerID : Int := 0
  entryTime : Int := 0
  exitTime : Int := 0
  duration : Int := 0
  params : List (String × String) := []
  returnValues : List String := []
  memBefore : Nat := 0
  memAfter : Nat := 0
  memDiff : Nat := 0
  panicValue : Option String := none
  stackTrace : String := ""
  goroutinesDelta : Int := 0
  threadsDelta : Int := 0
  gcCountDelta : Nat := 0
  heapAllocDelta : Int := 0
  heapFreeDelta : Int := 0
  netUsageDelta : Int := 0
  diskUsageDelta : Int := 0
  systemCPULoad : Int := 0
  systemMemUsage : Nat := 0
deriving Repr, DecidableEq

/-- LogEvent is a structured stand-in for one `logger.Printf` line of the
recorder; the claims only need to know which line was emitted with which
arguments, not the exact formatted text. -/
inductive LogEvent where
  | entering (fn : String) (id : Int)
  | paramLine (p v : String)
  | returning (fn : String) (vals : List String)
  | exiting (fn : String) (id : Int) (dur : Int) (memDiff : Nat)
  | totalRecords (n : Nat)
  | sysDebug (cpu : Int) (mem : Nat)
  | panicLine (fn v stack : String)
  | goroutinesLine (fn : String) (d : Int)
  | threadsLine (fn : String) (d : Int)
  | gcLine (fn : String) (d : Nat)
  | heapLine (fn : String) (a b : Int)
  | ioLine (fn : String) (a b : Int)
  | freqLine (fn : String) (count : Nat)
  | resourceLine (fn : String) (cpu : Int) (heap : Int)
deriving Repr, DecidableEq

/-- RecState bundles the recorder's package-level mutable variables:
`traceRecords` (aggregate list), `callStack` (stack of active records, top at
the END of the list as in the Go slice), `uniqueID` (the atomic id counter)
and `execFrequency` (per-name call counters, as an association list).  The
`log` component records emitted log lines. -/
structure RecState where
  traceRecords : List TraceRecord := []
  callStack : List TraceRecord := []
  uniqueID : Int := 0
  execFrequency : List (String × Nat) := []
  log : List LogEvent := []
deriving Repr, DecidableEq

/-- initState is the zero value of the recorder's package variables. -/
def initState : RecState := {}

/-- updateAssoc sets key `k` to `v` in an association list, replacing the
first existing binding in place or appending a new one; it models a Go map
write `m[k] = v`. -/
def updateAssoc (k : String) (v : String) : List (String × String) → List (String × String)
  | [] => [(k, v)]
  | (k', v') :: rest => if k' = k then (k, v) :: rest else (k', v') :: updateAssoc k v rest

/-- bumpFreq increments the counter for `k` in an association list of
counters, modelling `execFrequency[functionName]++`. -/
def bumpFreq (k : String) : List (String × Nat) → List (String × Nat)
  | [] => [(k, 1)]
  | (k', n) :: rest => if k' = k then (k, n + 1) :: rest else (k', n) :: bumpFreq k rest

/-- lookupFreq reads the counter for `k` (a missing key reads as 0, as for a
Go map of `int`). -/
def lookupFreq (k : String) : List (String × Nat) → Nat
  | [] => 0
  | (k', n) :: rest => if k' = k then n else lookupFreq k rest

/-- modifyTop applies `f` to the last element of a list (the stack top:
`callStack[len(callStack)-1]` in the Go source) and leaves an empty list
unchanged. -/
def modifyTop (f : TraceRecord → TraceRecord) : List TraceRecord → List TraceRecord
  | [] => []
  | [t] => [f t]
  | t :: ts => t :: modifyTop f ts

/-- popTop splits a non-empty list into everything but the last element and
the last element (the Go `top := callStack[len-1]; callStack = callStack[:len-1]`). -/
def popTop : List TraceRecord → Option (List TraceRecord × TraceRecord)
  | [] => none
  | [t] => some ([], t)
  | t :: ts =>
    match popTop ts with
    | some (rest, top) => some (t :: rest, top)
    | none => none

/-- stackTop reads the last element of the call stack, if any. -/
def stackTop (stack : List TraceRecord) : Option TraceRecord := stack.getLast?

/-- recordEntry mirrors `RecordEntry`: allocate the next id, build a record
with entry time and memory-before snapshot and an empty parameter map, set
the caller id from the current stack top if the stack is non-empty, push the
record, and log an "Entering" line.  `now` and `mem` stand for `time.Now()`
and `readMem()`. -/
def recordEntry (functionName : String) (now : Int) (mem : Nat) (st : RecState) : RecState :=
  let id := st.uniqueID + 1
  let callerID : Int :=
    match stackTop st.callStack with
    | some t => t.uniqueID
    | none => 0
  let record : TraceRecord :=
    { uniqueID := id, functionName := functionName, entryTime := now,
      memBefore := mem, params := [], callerID := callerID }
  { st with uniqueID := id,
            callStack := st.callStack ++ [record],
            log := st.log ++ [.entering functionName id] }

/-- recordParam mirrors `RecordParam`: if the stack is non-empty, store the
rendered value under the parameter name in the top record's parameter map;
the log line is emitted whether or not the stack is empty.  `value` stands
for the Go-side rendering `fmt.Sprintf("%+v", value)`. -/
def recordParam (paramName : String) (value : String) (st : RecState) : RecState :=
  { st with
      callStack := modifyTop (fun t => { t with params := updateAssoc paramName value t.params }) st.callStack,
      log := st.log ++ [.paramLine paramName value] }

/-- recordReturn mirrors `RecordReturn`: if the stack is non-empty, append
the rendered return values to the top record's return list; the log line is
emitted unconditionally. -/
def recordReturn (functionName : String) (returns : List String) (st : RecState) : RecState :=
  { st with
      callStack := modifyTop (fun t => { t with returnValues := t.returnValues ++ returns }) st.callStack,
      log := st.log ++ [.returning functionName returns] }

/-- recordExit mirrors `RecordExit`: on a non-empty stack it pops the top
record, fills exit time, duration (from the record's own stored entry time —
the `startTime` argument is never read), memory-after, the floored-at-zero
memory difference, the system CPU-load and memory-usage snapshots, appends
the finalized record to the aggregate list and logs three lines.  On an
empty stack it does nothing at all (in the source even the log lines sit
inside the `if len(callStack) > 0` block).  `now`, `memNow`, `cpu`, `sysm`
stand for `time.Now()`, `readMem()`, `GetSystemCPULoad()`,
`GetSystemMemUsage()`. -/
def recordExit (functionName : String) (startTime : Int) (now : Int) (memNow : Nat)
    (cpu : Int) (sysm : Nat) (st : RecState) : RecState :=
  match popTop st.callStack with
  | none => st
  | some (rest, top) =>
    let _ := startTime
    let top' := { top with
      exitTime := now,
      duration := now - top.entryTime,
      memAfter := memNow,
      memDiff := if memNow > top.memBefore then memNow - top.memBefore else 0,
      systemCPULoad := cpu,
      systemMemUsage := sysm }
    { st with
        callStack := rest,
        traceRecords := st.traceRecords ++ [top'],
        log := st.log ++
          [.exiting functionName top'.uniqueID top'.duration top'.memDiff,
           .totalRecords (st.traceRecords.length + 1),
           .sysDebug cpu sysm] }

/-- recordPanic mirrors `RecordPanic`: if the stack is non-empty, set the
panic value and stack trace on the top record; the log line is emitted
unconditionally. -/
def recordPanic (functionName : String) (panicValue : String) (stack : String) (st : RecState) : RecState :=
  { st with
      callStack := modifyTop (fun t => { t with panicValue := some panicValue, stackTrace := stack }) st.callStack,
      log := st.log ++ [.panicLine functionName panicValue stack] }

/-- recordGoroutineUsage mirrors `RecordGoroutineUsage`. -/
def recordGoroutineUsage (functionName : String) (delta : Int) (st : RecState) : RecState :=
  { st with
      callStack := modifyTop (fun t => { t with goroutinesDelta := delta }) st.callStack,
      log := st.log ++ [.goroutinesLine functionName delta] }

/-- recordThreadUsage mirrors `RecordThreadUsage`. -/
def recordThreadUsage (functionName : String) (delta : Int) (st : RecState) : RecState :=
  { st with
      callStack := modifyTop (fun t => { t with threadsDelta := delta }) st.callStack,
      log := st.log ++ [.threadsLine functionName delta] }

/-- recordGCActivity mirrors `RecordGCActivity`. -/
def recordGCActivity (functionName : String) (delta : Nat) (st : RecState) : RecState :=
  { st with
      callStack := modifyTop (fun t => { t with gcCountDelta := delta }) st.callStack,
      log := st.log ++ [.gcLine functionName delta] }

/-- recordHeapUsage mirrors `RecordHeapUsage`. -/
def recordHeapUsage (functionName : String) (heapAllocDelta heapFreeDelta : Int) (st : RecState) : RecState :=
  { st with
      callStack := modifyTop
        (fun t => { t with heapAllocDelta := heapAllocDelta, heapFreeDelta := heapFreeDelta }) st.callStack,
      log := st.log ++ [.heapLine functionName heapAllocDelta heapFreeDelta] }

/-- recordIOUsage mirrors `RecordIOUsage`. -/
def recordIOUsage (functionName : String) (netUsageDelta diskUsageDelta : Int) (st : RecState) : RecState :=
  { st with
      callStack := modifyTop
        (fun t => { t with netUsageDelta := netUsageDelta, diskUsageDelta := diskUsageDelta }) st.callStack,
      log := st.log ++ [.ioLine functionName netUsageDelta diskUsageDelta] }

/-- recordExecutionFrequency mirrors `RecordExecutionFrequency`: increment
the per-name counter and log the new count. -/
def recordExecutionFrequency (functionName : String) (st : RecState) : RecState :=
  let freq := bumpFreq functionName st.execFrequency
  { st with
      execFrequency := freq,
      log := st.log ++ [.freqLine functionName (lookupFreq functionName freq)] }

/-- recordResourceUsage mirrors `RecordResourceUsage`: its body is a single
`logger.Printf`; it touches no stored recorder state. -/
def recordResourceUsage (functionName : String) (cpuTimeDiff : Int) (heapAllocDiff : Int)
    (st : RecState) : RecState :=
  { st with log := st.log ++ [.resourceLine functionName cpuTimeDiff heapAllocDiff] }

/-- storedState projects the recorder state on its stored (non-log)
components: call stack, aggregate list, id counter and frequency map. -/
def storedState (st : RecState) :
    List TraceRecord × List TraceRecord × Int × List (String × Nat) :=
  (st.callStack, st.traceRecords, st.uniqueID, st.execFrequency)

/-- Op enumerates one recorder operation together with the external probe
readings it consumes, so that an arbitrary interleaving of recorder calls is
a `List Op`. -/
inductive Op where
  | enter (fn : String) (now : Int) (mem : Nat)
  | param (p v : String)
  | ret (fn : String) (vs : List String)
  | exitOp (fn : String) (startTime now : Int) (memNow : Nat) (cpu : Int) (sysm : Nat)
  | panicOp (fn v stack : String)
  | goroutine (fn : String) (d : Int)
  | thread (fn : String) (d : Int)
  | gcAct (fn : String) (d : Nat)
  | heapOp (fn : String) (a b : Int)
  | ioOp (fn : String) (a b : Int)
  | freq (fn : String)
  | resource (fn : String) (c h : Int)
deriving Repr, DecidableEq

/-- step dispatches one operation to the corresponding recorder function. -/
def step (op : Op) (st : RecState) : RecState :=
  match op with
  | .enter fn now mem => recordEntry fn now mem st
  | .param p v => recordParam p v st
  | .ret fn vs => recordReturn fn vs st
  | .exitOp fn s now m c sm => recordExit fn s now m c sm st
  | .panicOp fn v s => recordPanic fn v s st
  | .goroutine fn d => recordGoroutineUsage fn d st
  | .thread fn d => recordThreadUsage fn d st
  | .gcAct fn d => recordGCActivity fn d st
  | .heapOp fn a b => recordHeapUsage fn a b st
  | .ioOp fn a b => recordIOUsage fn a b st
  | .freq fn => recordExecutionFrequency fn st
  | .resource fn c h => recordResourceUsage fn c h st

/-- runFrom applies a sequence of operations from a given state. -/
def runFrom (st : RecState) : List Op → RecState
  | [] => st
  | op :: ops => runFrom (step op st) ops

/-- run applies a sequence of operations from the initial (zero) recorder
state. -/
def run (ops : List Op) : RecState := runFrom initState ops

/-- allRecords lists every record the recorder currently holds: the active
ones on the call stack and the completed ones in the aggregate list. -/
def allRecords (st : RecState) : List TraceRecord := st.callStack ++ st.traceRecords

/-- recIDs projects a record list on the unique ids. -/
def recIDs (l : List TraceRecord) : List Int := l.map (·.uniqueID)

end Tracewrap

namespace Tracewrap

/-- C9: `RecordResourceUsage` only emits a log line: the call stack, the
aggregate trace list, the execution-frequency map, the id counter and hence
every field of every stored record are identical before and after the call,
and exactly one resource-usage log event is appended. -/
theorem recordResourceUsage_frame (fn : String) (cpu heap : Int) (st : RecState) :
    storedState (recordResourceUsage fn cpu heap st) = storedState st ∧
    (recordResourceUsage fn cpu heap st).log = st.log ++ [.resourceLine fn cpu heap] := by
  constructor <;> rfl

/-- C7: against an empty call stack, each of `RecordParam`, `RecordReturn`,
`RecordExit` and `RecordPanic` leaves the recorder's stored state (stack,
aggregate list, id counter, frequency map) entirely unchanged; in particular
`RecordExit` appends nothing to the aggregate list. -/
theorem emptyStack_noop (st : RecState) (h : st.callStack = [])
    (p v fn s : String) (vs : List String) (startTime now : Int) (memNow : Nat)
    (cpu : Int) (sysm : Nat) :
    storedState (recordParam p v st) = storedState st ∧
    storedState (recordReturn fn vs st) = storedState st ∧
    storedState (recordExit fn startTime now memNow cpu sysm st) = storedState st ∧
    storedState (recordPanic fn v s st) = storedState st := by
  refine ⟨?_, ?_, ?_, ?_⟩ <;>
    simp [storedState, recordParam, recordReturn, recordExit, recordPanic, h, modifyTop, popTop]

/-- Witness for `emptyStack_noop` at the initial state. -/
theorem emptyStack_noop_witness :
    storedState (recordParam "p" "1" initState) = storedState initState ∧
    storedState (recordReturn "f" ["2"] initState) = storedState initState ∧
    storedState (recordExit "f" 0 5 7 1 9 initState) = storedState initState ∧
    storedState (recordPanic "f" "1" "st" initState) = storedState initState :=
  emptyStack_noop initState rfl "p" "1" "f" "st" ["2"] 0 5 7 1 9

/-- C10: on a non-empty call stack the stored state produced by `RecordExit`
does not depend on the `functionName` and `startTime` arguments: the duration
comes from the popped record's own stored entry time, and the two arguments
only reach the log. -/
theorem recordExit_args_independent (st : RecState) (h : st.callStack ≠ [])
    (fn₁ fn₂ : String) (t₁ t₂ now : Int) (memNow : Nat) (cpu : Int) (sysm : Nat) :
    storedState (recordExit fn₁ t₁ now memNow cpu sysm st) =
    storedState (recordExit fn₂ t₂ now memNow cpu sysm st) := by
  have : ∀ l : List TraceRecord, l ≠ [] → ∃ rest top, popTop l = some (rest, top) := by
    intro l
    induction l with
    | nil => intro hl; exact absurd rfl hl
    | cons t ts ih =>
      intro _
      cases ts with
      | nil => exact ⟨[], t, rfl⟩
      | cons u us =>
        obtain ⟨rest, top, hpt⟩ := ih (by simp)
        exact ⟨t :: rest, top, by simp [popTop, hpt]⟩
  obtain ⟨rest, top, hpt⟩ := this st.callStack h
  simp [storedState, recordExit, hpt]

/-- Witness for `recordExit_args_independent` on a one-record stack with two
different name/start-time argument pairs. -/
theorem recordExit_args_independent_witness :
    storedState (recordExit "f" 3 10 7 1 9 (recordEntry "f" 1 2 initState)) =
    storedState (recordExit "other" 99 10 7 1 9 (recordEntry "f" 1 2 initState)) :=
  recordExit_args_independent (recordEntry "f" 1 2 initState) (by decide)
    "f" "other" 3 99 10 7 1 9

/-- idCaller projects a record on its identifying pair (unique id, caller id). -/
def idCaller (r : TraceRecord) : Int × Int := (r.uniqueID, r.callerID)

/-- pairs projects a record list on the (unique id, caller id) pairs. -/
def pairs (l : List TraceRecord) : List (Int × Int) := l.map idCaller

/-- pairsM is the multiset of (unique id, caller id) pairs of a record list. -/
def pairsM (l : List TraceRecord) : Multiset (Int × Int) := (pairs l : List (Int × Int))

/-- pairInv is the id discipline of the recorder, stated on the multiset of
projected pairs: the counter is non-negative, every id lies in
`[1, counter]`, ids are pairwise distinct, and a non-zero caller id is
strictly below its record's own id and is the id of some record. -/
def pairInv (u : Int) (ps : Multiset (Int × Int)) : Prop :=
  0 ≤ u ∧
  (∀ p ∈ ps, 1 ≤ p.1 ∧ p.1 ≤ u) ∧
  (ps.map Prod.fst).Nodup ∧
  (∀ p ∈ ps, p.2 ≠ 0 → p.2 < p.1 ∧ p.2 ∈ ps.map Prod.fst)

/-- Inv is `pairInv` instantiated at the recorder state's counter and record
pool. -/
def Inv (st : RecState) : Prop := pairInv st.uniqueID (pairsM (allRecords st))

theorem pairs_append (l₁ l₂ : List TraceRecord) :
    pairs (l₁ ++ l₂) = pairs l₁ ++ pairs l₂ := List.map_append _ _ _

theorem pairs_modifyTop (f : TraceRecord → TraceRecord)
    (hf : ∀ t, idCaller (f t) = idCaller t) :
    ∀ l, pairs (modifyTop f l) = pairs l := by
  intro l
  induction l with
  | nil => rfl
  | cons t ts ih =>
    cases ts with
    | nil => simp [modifyTop, pairs, hf]
    | cons u us =>
      have := ih
      simp only [modifyTop, pairs, List.map_cons] at this ⊢
      exact congrArg _ this

theorem popTop_eq_append : ∀ {l rest top},
    popTop l = some (rest, top) → l = rest ++ [top] := by
  intro l
  induction l with
  | nil => intro rest top h; simp [popTop] at h
  | cons t ts ih =>
    intro rest top h
    cases ts with
    | nil => simp [popTop] at h; simp [h.1.symm, h.2.symm]
    | cons u us =>
      simp only [popTop] at h
      cases hpt : popTop (u :: us) with
      | none => rw [hpt] at h; simp at h
      | some p =>
        rw [hpt] at h
        obtain ⟨rest', top'⟩ := p
        simp at h
        obtain ⟨h1, h2⟩ := h
        have := ih hpt
        subst h1 h2
        simp [this]

theorem stackTop_mem : ∀ {l : List TraceRecord} {t},
    stackTop l = some t → t ∈ l := by
  intro l
  induction l with
  | nil => intro t h; simp [stackTop] at h
  | cons u us ih =>
    intro t h
    cases us with
    | nil => simp [stackTop] at h; simp [h]
    | cons v vs =>
      have : stackTop (v :: vs) = some t := by
        simpa [stackTop, List.getLast?] using h
      exact List.mem_cons_of_mem _ (ih this)

theorem Inv_of_eq {st st' : RecState} (h : Inv st)
    (hu : st'.uniqueID = st.uniqueID)
    (hp : pairsM (allRecords st') = pairsM (allRecords st)) : Inv st' := by
  rw [Inv, hu, hp]; exact h

theorem pairInv_cons {u : Int} {ps : Multiset (Int × Int)} {c : Int}
    (h : pairInv u ps) (hc : c = 0 ∨ c ∈ ps.map Prod.fst) :
    pairInv (u + 1) ((u + 1, c) ::ₘ ps) := by
  obtain ⟨h0, h1, h2, h3⟩ := h
  have hcb : c = 0 ∨ (1 ≤ c ∧ c ≤ u) := by
    rcases hc with h | h
    · exact Or.inl h
    · right
      obtain ⟨p, hp, hpc⟩ := Multiset.mem_map.1 h
      obtain ⟨hl, hr⟩ := h1 p hp
      exact ⟨hpc ▸ hl, hpc ▸ hr⟩
  refine ⟨by omega, ?_, ?_, ?_⟩
  · intro p hp
    rcases Multiset.mem_cons.1 hp with h | h
    · subst h; exact ⟨by omega, le_refl _⟩
    · have := h1 p h; omega
  · rw [Multiset.map_cons]
    refine Multiset.nodup_cons.2 ⟨?_, h2⟩
    intro hmem
    obtain ⟨p, hp, hpa⟩ := Multiset.mem_map.1 hmem
    have := h1 p hp
    omega
  · intro p hp hne
    rcases Multiset.mem_cons.1 hp with h | h
    · subst h
      simp only at hne
      rcases hcb with h' | h'
      · exact absurd h' hne
      · refine ⟨by omega, ?_⟩
        rcases hc with h'' | h''
        · exact absurd h'' hne
        · rw [Multiset.map_cons]; exact Multiset.mem_cons_of_mem h''
    · obtain ⟨hlt, hmem⟩ := h3 p h hne
      exact ⟨hlt, by rw [Multiset.map_cons]; exact Multiset.mem_cons_of_mem hmem⟩

/-- step_inv: every recorder operation preserves the id discipline. -/
theorem step_inv (op : Op) (st : RecState) (h : Inv st) : Inv (step op st) := by
  cases op with
  | enter fn now mem =>
    show Inv (recordEntry fn now mem st)
    have hps : pairsM (allRecords (recordEntry fn now mem st)) =
        (st.uniqueID + 1,
          match stackTop st.callStack with
          | some t => t.uniqueID
          | none => 0) ::ₘ pairsM (allRecords st) := by
      simp only [recordEntry, allRecords, pairsM, pairs, List.map_append]
      rw [Multiset.cons_coe]
      refine Multiset.coe_eq_coe.2 ?_
      rw [List.append_assoc, List.map_singleton, List.singleton_append]
      exact List.perm_middle.trans (List.Perm.refl _)
    rw [Inv, hps]
    show pairInv (st.uniqueID + 1) _
    refine pairInv_cons h ?_
    cases htop : stackTop st.callStack with
    | none => exact Or.inl rfl
    | some t =>
      right
      have ht : t ∈ allRecords st := List.mem_append_left _ (stackTop_mem htop)
      refine Multiset.mem_map.2 ⟨idCaller t, ?_, rfl⟩
      simp only [pairsM, pairs, Multiset.mem_coe]
      exact List.mem_map.2 ⟨t, ht, rfl⟩
  | param p v =>
    refine Inv_of_eq h rfl ?_
    show pairsM (allRecords (recordParam p v st)) = pairsM (allRecords st)
    simp only [recordParam, allRecords, pairsM]
    rw [pairs_append, pairs_append, pairs_modifyTop]
    intro t; rfl
  | ret fn vs =>
    refine Inv_of_eq h rfl ?_
    show pairsM (allRecords (recordReturn fn vs st)) = pairsM (allRecords st)
    simp only [recordReturn, allRecords, pairsM]
    rw [pairs_append, pairs_append, pairs_modifyTop]
    intro t; rfl
  | exitOp fn s now m c sm =>
    show Inv (recordExit fn s now m c sm st)
    cases hpt : popTop st.callStack with
    | none => simpa [recordExit, hpt] using h
    | some p =>
      obtain ⟨rest, top⟩ := p
      have hsplit := popTop_eq_append hpt
      refine Inv_of_eq h (by simp [recordExit, hpt]) ?_
      show pairsM (allRecords (recordExit fn s now m c sm st)) = pairsM (allRecords st)
      simp only [recordExit, hpt]
      simp only [allRecords, pairsM, pairs, List.map_append]
      rw [hsplit]
      simp only [List.map_append, List.map_singleton]
      refine Multiset.coe_eq_coe.2 ?_
      have hic : idCaller { top with
          exitTime := now, duration := now - top.entryTime, memAfter := m,
          memDiff := if m > top.memBefore then m - top.memBefore else 0,
          systemCPULoad := c, systemMemUsage := sm } = idCaller top := rfl
      rw [hic]
      refine (List.Perm.append_left _ List.perm_append_comm).trans ?_
      rw [← List.append_assoc]
  | panicOp fn v s =>
    refine Inv_of_eq h rfl ?_
    show pairsM (allRecords (recordPanic fn v s st)) = pairsM (allRecords st)
    simp only [recordPanic, allRecords, pairsM]
    rw [pairs_append, pairs_append, pairs_modifyTop]
    intro t; rfl
  | goroutine fn d =>
    refine Inv_of_eq h rfl ?_
    show pairsM (allRecords (recordGoroutineUsage fn d st)) = pairsM (allRecords st)
    simp only [recordGoroutineUsage, allRecords, pairsM]
    rw [pairs_append, pairs_append, pairs_modifyTop]
    intro t; rfl
  | thread fn d =>
    refine Inv_of_eq h rfl ?_
    show pairsM (allRecords (recordThreadUsage fn d st)) = pairsM (allRecords st)
    simp only [recordThreadUsage, allRecords, pairsM]
    rw [pairs_append, pairs_append, pairs_modifyTop]
    intro t; rfl
  | gcAct fn d =>
    refine Inv_of_eq h rfl ?_
    show pairsM (allRecords (recordGCActivity fn d st)) = pairsM (allRecords st)
    simp only [recordGCActivity, allRecords, pairsM]
    rw [pairs_append, pairs_append, pairs_modifyTop]
    intro t; rfl
  | heapOp fn a b =>
    refine Inv_of_eq h rfl ?_
    show pairsM (allRecords (recordHeapUsage fn a b st)) = pairsM (allRecords st)
    simp only [recordHeapUsage, allRecords, pairsM]
    rw [pairs_append, pairs_append, pairs_modifyTop]
    intro t; rfl
  | ioOp fn a b =>
    refine Inv_of_eq h rfl ?_
    show pairsM (allRecords (recordIOUsage fn a b st)) = pairsM (allRecords st)
    simp only [recordIOUsage, allRecords, pairsM]
    rw [pairs_append, pairs_append, pairs_modifyTop]
    intro t; rfl
  | freq fn => exact Inv_of_eq h rfl rfl
  | resource fn c hh => exact Inv_of_eq h rfl rfl
theorem runFrom_inv (ops : List Op) : ∀ st, Inv st → Inv (runFrom st ops) := by
  induction ops with
  | nil => intro st h; exact h
  | cons op ops ih => intro st h; exact ih _ (step_inv op st h)

theorem inv_init : Inv initState := by
  refine ⟨le_refl 0, ?_, ?_, ?_⟩ <;> simp [initState, allRecords, pairsM, pairs]

theorem run_inv (ops : List Op) : Inv (run ops) := runFrom_inv ops initState inv_init

/-- C2 counterexample: with two nested activations (`Enter f`, `Enter g`,
`Exit g`, `Exit f`) the aggregate list holds ids `[2, 1]` — the inner
activation completes first — so the ids do NOT strictly increase in append
order. -/
theorem aggregateIDs_not_increasing :
    recIDs ((run [.enter "f" 0 0, .enter "g" 1 0,
      .exitOp "g" 1 2 0 0 0, .exitOp "f" 0 3 0 0 0]).traceRecords) = [2, 1] ∧
    ¬ List.Pairwise (fun a b : Int => a < b)
      (recIDs ((run [.enter "f" 0 0, .enter "g" 1 0,
        .exitOp "g" 1 2 0 0 0, .exitOp "f" 0 3 0 0 0]).traceRecords)) := by
  constructor
  · rfl
  · intro h
    rw [show recIDs ((run [.enter "f" 0 0, .enter "g" 1 0,
      .exitOp "g" 1 2 0 0 0, .exitOp "f" 0 3 0 0 0]).traceRecords) = [2, 1] from rfl] at h
    simp at h

/-- C2 amended: for every sequence of recorder operations the unique ids in
the aggregate list are pairwise distinct (ids are never reused) and every id
lies between 1 and the current counter; the append order itself is completion
order, in which a nested activation's larger id precedes its caller's. -/
theorem aggregateIDs_nodup (ops : List Op) :
    (recIDs ((run ops).traceRecords)).Nodup ∧
    (∀ r ∈ (run ops).traceRecords, 1 ≤ r.uniqueID ∧ r.uniqueID ≤ (run ops).uniqueID) := by
  obtain ⟨h0, h1, h2, h3⟩ := run_inv ops
  constructor
  · have hn : ((allRecords (run ops)).map (fun r => r.uniqueID)).Nodup := by
      have : (pairsM (allRecords (run ops))).map Prod.fst =
          ((allRecords (run ops)).map (fun r => r.uniqueID) : List Int) := by
        simp only [pairsM, pairs, Multiset.map_coe, List.map_map]
        rfl
      rw [this] at h2
      exact h2
    have : recIDs (allRecords (run ops)) = recIDs ((run ops).callStack) ++ recIDs ((run ops).traceRecords) := by
      simp [recIDs, allRecords]
    have hn' : (recIDs (allRecords (run ops))).Nodup := hn
    rw [this] at hn'
    exact hn'.of_append_right
  · intro r hr
    have hp : idCaller r ∈ pairsM (allRecords (run ops)) := by
      simp only [pairsM, pairs, Multiset.mem_coe]
      exact List.mem_map.2 ⟨r, List.mem_append_right _ hr, rfl⟩
    exact h1 (idCaller r) hp

/-- C8: in every reachable recorder state, a record's non-zero caller id is
strictly less than the record's own unique id and is the unique id of some
record created earlier (ids are handed out in increasing order, so a smaller
id was assigned strictly earlier). -/
theorem callerID_names_earlier (ops : List Op) (r : TraceRecord)
    (hr : r ∈ allRecords (run ops)) (hc : r.callerID ≠ 0) :
    r.callerID < r.uniqueID ∧ ∃ r' ∈ allRecords (run ops), r'.uniqueID = r.callerID := by
  obtain ⟨h0, h1, h2, h3⟩ := run_inv ops
  have hp : idCaller r ∈ pairsM (allRecords (run ops)) := by
    simp only [pairsM, pairs, Multiset.mem_coe]
    exact List.mem_map.2 ⟨r, hr, rfl⟩
  obtain ⟨hlt, hmem⟩ := h3 (idCaller r) hp hc
  refine ⟨hlt, ?_⟩
  obtain ⟨p, hp', hpc⟩ := Multiset.mem_map.1 hmem
  simp only [pairsM, pairs, Multiset.mem_coe] at hp'
  obtain ⟨r', hr', hr'p⟩ := List.mem_map.1 hp'
  refine ⟨r', hr', ?_⟩
  rw [← hr'p] at hpc
  exact hpc

/-- Witness for `callerID_names_earlier`: after `Enter main; Enter f` the
record for `f` has caller id 1, which is smaller than its own id 2 and is
the id of the record for `main`. -/
theorem callerID_names_earlier_witness :
    (1 : Int) < 2 ∧
    ∃ r' ∈ allRecords (run [.enter "main" 0 0, .enter "f" 1 2]), r'.uniqueID = 1 :=
  callerID_names_earlier [.enter "main" 0 0, .enter "f" 1 2]
    { uniqueID := 2, functionName := "f", callerID := 1, entryTime := 1, memBefore := 2 }
    (by decide) (by decide)

/-! DumpCallGraphDOT.  The DOT writer is modelled string for string; the only
abstractions are the numeric renderings (`toString` stands in for Go's `%d`,
`%v` on `time.Duration` and `%.2f`, whose text the claims never inspect) and
the parameter map, iterated in association-list order where a Go map iterates
in unspecified order.  Byte slicing of the escaped label text is modelled as
character slicing (labels are treated as ASCII). -/

/-- escapeLabel mirrors the two `strings.ReplaceAll` calls that escape
backslashes and double quotes in parameter/return text. -/
def escapeLabel (s : String) : String :=
  (s.replace "\\" "\\\\").replace "\"" "\\\""

/-- maxlabelLength is the fixed truncation length for parameter and return
text in node labels. -/
def maxlabelLength : Nat := 40

/-- truncLabel mirrors `escapedValue[:min(len(escapedValue), maxlabelLength)]`. -/
def truncLabel (s : String) : String := s.take (min s.length maxlabelLength)

/-- nodeLabel builds one node's label exactly as the label-builder loop in
`DumpCallGraphDOT` does:  name, id, duration and memory diff, an optional
system-load line, then truncated parameter and return renderings. -/
def nodeLabel (r : TraceRecord) : String :=
  let base := r.functionName ++ "\\nID: " ++ toString r.uniqueID ++
    "\\nDuration: " ++ toString r.duration ++
    "\\nMemDiff: " ++ toString r.memDiff ++ " bytes"
  let base :=
    if r.systemCPULoad ≠ 0 ∨ r.systemMemUsage ≠ 0 then
      base ++ "\\nSysLoad: " ++ toString r.systemCPULoad ++
        ", SysMem: " ++ toString r.systemMemUsage ++ " bytes"
    else base
  let base :=
    if r.params.length > 0 then
      r.params.foldl
        (fun acc kv =>
          acc ++ "\\n  " ++ kv.1 ++ " = " ++ truncLabel (escapeLabel kv.2) ++ "...")
        (base ++ "\\nParams:")
    else base
  if r.returnValues.length > 0 then
    (r.returnValues.enum.foldl
      (fun acc rv =>
        acc ++ "\\n  [" ++ toString rv.1 ++ "] " ++ truncLabel (escapeLabel rv.2) ++ "...")
      (base ++ "\\nReturns:"))
  else base

/-- nodeLine renders one record's node statement
(`  %d [label="%s"];\n`). -/
def nodeLine (r : TraceRecord) : String :=
  "  " ++ toString r.uniqueID ++ " [label=\"" ++ nodeLabel r ++ "\"];\n"

/-- dotNodeIDs lists the ids for which `DumpCallGraphDOT` emits a node line:
one per aggregate record, in aggregate order, with no record excluded. -/
def dotNodeIDs (trace : List TraceRecord) : List Int := trace.map (·.uniqueID)

/-- dotEdges lists the edges `DumpCallGraphDOT` emits, in aggregate order:
`callerID -> uniqueID` for every record whose caller id is non-zero. -/
def dotEdges (trace : List TraceRecord) : List (Int × Int) :=
  trace.filterMap (fun r => if r.callerID ≠ 0 then some (r.callerID, r.uniqueID) else none)

/-- edgeLine renders one edge statement (`  %d -> %d;\n`). -/
def edgeLine (e : Int × Int) : String :=
  "  " ++ toString e.1 ++ " -> " ++ toString e.2 ++ ";\n"

/-- dumpCallGraphDOT assembles the DOT text exactly as the Go function does:
header, one node line per aggregate record, one edge line per record with a
non-zero caller id, and the closing brace. -/
def dumpCallGraphDOT (trace : List TraceRecord) : String :=
  "digraph CallGraph \x7b\n" ++
  "  node [shape=box, style=filled, color=\"lightblue\"];\n" ++
  String.join (trace.map nodeLine) ++
  String.join ((dotEdges trace).map edgeLine) ++
  "\x7d\n"

/-- C6 counterexample: over the 3-record aggregate root→a, root→b the DOT
output contains THREE node lines — the root is emitted as a node like any
other record, not elided — together with exactly 2 edges, both sourced from
the root's id.  The claim's "2 non-root nodes (the root elided as a node)"
is therefore false of `DumpCallGraphDOT` (eliding the root is what the
separate log-parsing generator does). -/
theorem dumpCallGraphDOT_root_not_elided :
    (dotNodeIDs [{ uniqueID := 1, functionName := "main", callerID := 0 },
                 { uniqueID := 2, functionName := "a", callerID := 1 },
                 { uniqueID := 3, functionName := "b", callerID := 1 }]).length = 3 ∧
    (1 : Int) ∈ dotNodeIDs [{ uniqueID := 1, functionName := "main", callerID := 0 },
                 { uniqueID := 2, functionName := "a", callerID := 1 },
                 { uniqueID := 3, functionName := "b", callerID := 1 }] ∧
    dotEdges [{ uniqueID := 1, functionName := "main", callerID := 0 },
              { uniqueID := 2, functionName := "a", callerID := 1 },
              { uniqueID := 3, functionName := "b", callerID := 1 }] = [(1, 2), (1, 3)] := by
  refine ⟨rfl, ?_, by decide⟩
  decide

/-- C6 amended: for every aggregate of exactly 3 completed records in which
the first is the root (caller id 0, non-zero own id) and the other two name
the root's id as caller, `DumpCallGraphDOT` emits one node line per record —
3 nodes, the root included, not elided — and exactly 2 edges, both sourced
from the root's id. -/
theorem dumpCallGraphDOT_three_records (r₁ r₂ r₃ : TraceRecord)
    (h₁ : r₁.callerID = 0) (h₂ : r₂.callerID = r₁.uniqueID)
    (h₃ : r₃.callerID = r₁.uniqueID) (hroot : r₁.uniqueID ≠ 0) :
    dotNodeIDs [r₁, r₂, r₃] = [r₁.uniqueID, r₂.uniqueID, r₃.uniqueID] ∧
    dotEdges [r₁, r₂, r₃] = [(r₁.uniqueID, r₂.uniqueID), (r₁.uniqueID, r₃.uniqueID)] := by
  constructor
  · rfl
  · simp [dotEdges, List.filterMap, h₁, h₂, h₃, hroot]

/-- Witness for `dumpCallGraphDOT_three_records` at the concrete root→a,
root→b aggregate. -/
theorem dumpCallGraphDOT_three_records_witness :
    dotNodeIDs [{ uniqueID := 1, functionName := "main", callerID := 0 },
                { uniqueID := 2, functionName := "a", callerID := 1 },
                { uniqueID := 3, functionName := "b", callerID := 1 }] = [1, 2, 3] ∧
    dotEdges [{ uniqueID := 1, functionName := "main", callerID := 0 },
              { uniqueID := 2, functionName := "a", callerID := 1 },
              { uniqueID := 3, functionName := "b", callerID := 1 }] = [(1, 2), (1, 3)] :=
  dumpCallGraphDOT_three_records
    { uniqueID := 1, functionName := "main", callerID := 0 }
    { uniqueID := 2, functionName := "a", callerID := 1 }
    { uniqueID := 3, functionName := "b", callerID := 1 }
    rfl rfl rfl (by decide)

/-! Injected function prelude.  `instrumentFile` prepends `newStmts` to every
eligible function body:  the recover-and-repanic defer, eight snapshot
statements, the `RecordExit` defer, the resource-delta defer and the
`RecordEntry` call, followed by one `RecordParam` call per parameter.  The
statements are modelled by shape (which statement of the prelude they are);
the three deferred blocks additionally get executable recorder semantics so
that the exit path of an activation can be run. -/

/-- DeferBlock names the three deferred blocks `instrumentFile` registers,
in the order their `ast.DeferStmt` nodes are built. -/
inductive DeferBlock where
  | recoverRepanic
  | exitRecord
  | resourceDeltas
deriving Repr, DecidableEq

/-- PlainKind names the non-defer statements of the injected prelude. -/
inductive PlainKind where
  | startTimeDecl
  | startCPUTimeDecl
  | startGoroutinesDecl
  | startThreadsDecl
  | memStatsBeforeDecl
  | readMemStatsBefore
  | startNetUsageDecl
  | startDiskUsageDecl
  | recordEntryCall
  | paramLog (name : String)
deriving Repr, DecidableEq

/-- InjStmt is one statement of the injected prelude. -/
inductive InjStmt where
  | deferReg (b : DeferBlock)
  | plain (k : PlainKind)
deriving Repr, DecidableEq

/-- preludeStmts mirrors the `newStmts` list built in `instrumentFile`
(followed by `paramLogs`): the recover defer is registered first, the
`RecordExit` defer tenth, the resource-delta defer eleventh. -/
def preludeStmts (params : List String) : List InjStmt :=
  [.deferReg .recoverRepanic,
   .plain .startTimeDecl,
   .plain .startCPUTimeDecl,
   .plain .startGoroutinesDecl,
   .plain .startThreadsDecl,
   .plain .memStatsBeforeDecl,
   .plain .readMemStatsBefore,
   .plain .startNetUsageDecl,
   .plain .startDiskUsageDecl,
   .deferReg .exitRecord,
   .deferReg .resourceDeltas,
   .plain .recordEntryCall] ++
  params.map (fun p => .plain (.paramLog p))

/-- registeredDefers lists the deferred blocks in registration order. -/
def registeredDefers (l : List InjStmt) : List DeferBlock :=
  l.filterMap (fun s => match s with | .deferReg b => some b | .plain _ => none)

/-- deferRunOrder models Go's LIFO execution of deferred calls on function
exit: reverse of registration order. -/
def deferRunOrder (l : List InjStmt) : List DeferBlock := (registeredDefers l).reverse

/-- RecCallKind names the tracer calls the resource-delta defer body makes,
in source order. -/
inductive RecCallKind where
  | resourceUsage
  | goroutineUsage
  | threadUsage
  | gcActivity
  | heapUsage
  | ioUsage
  | executionFrequency
deriving Repr, DecidableEq

/-- resourceBlockCalls is the sequence of tracer calls in the body of the
resource-delta defer (`newDefer` in `instrumentFile`), in source order. -/
def resourceBlockCalls : List RecCallKind :=
  [.resourceUsage, .goroutineUsage, .threadUsage, .gcActivity,
   .heapUsage, .ioUsage, .executionFrequency]

/-- C4: the three guaranteed-cleanup blocks are registered in the order
recover, exit-record, resource-deltas, so by Go's reverse-of-registration
defer semantics they execute in the order resource-deltas (capturing
resource-usage, goroutine, thread, GC, heap, I/O and execution-frequency
records), then the `RecordExit` call, and the fault-recovery block last. -/
theorem deferRunOrder_spec (params : List String) :
    registeredDefers (preludeStmts params) = [.recoverRepanic, .exitRecord, .resourceDeltas] ∧
    deferRunOrder (preludeStmts params) = [.resourceDeltas, .exitRecord, .recoverRepanic] ∧
    resourceBlockCalls = [.resourceUsage, .goroutineUsage, .threadUsage, .gcActivity,
      .heapUsage, .ioUsage, .executionFrequency] := by
  have hreg : registeredDefers (preludeStmts params) =
      [.recoverRepanic, .exitRecord, .resourceDeltas] := by
    simp [preludeStmts, registeredDefers, List.filterMap_append, List.filterMap_map]
  exact ⟨hreg, by simp [deferRunOrder, hreg], rfl⟩

/-- ProbeInputs bundles the external readings the deferred blocks consume on
one exit path: the re-sampled counters' deltas fed to the resource defer,
and the probe values `RecordExit` reads. -/
structure ProbeInputs where
  startTime : Int := 0
  now : Int := 0
  memNow : Nat := 0
  cpuLoad : Int := 0
  sysMem : Nat := 0
  cpuDelta : Int := 0
  heapDelta : Int := 0
  gorDelta : Int := 0
  thrDelta : Int := 0
  gcDelta : Nat := 0
  netDelta : Int := 0
  diskDelta : Int := 0
deriving Repr, DecidableEq

/-- runDeferBlock gives one deferred block its recorder semantics.  The
`fault` component is the in-flight panic value: `recover()` yields it (and
stops unwinding) exactly when it is present; re-raising puts it back.  The
resource defer performs its seven tracer calls in source order (note the Go
body passes a literal `0` as the heap-free delta); the exit defer calls
`RecordExit`; the recovery defer, when a fault is in flight, calls
`RecordPanic` with the fault value and captured stack text and re-raises the
same value. -/
def runDeferBlock (fn : String) (pr : ProbeInputs) (stackText : String) :
    DeferBlock → Option String → RecState → RecState × Option String
  | .resourceDeltas, fault, st =>
    (recordExecutionFrequency fn
      (recordIOUsage fn pr.netDelta pr.diskDelta
        (recordHeapUsage fn pr.heapDelta 0
          (recordGCActivity fn pr.gcDelta
            (recordThreadUsage fn pr.thrDelta
              (recordGoroutineUsage fn pr.gorDelta
                (recordResourceUsage fn pr.cpuDelta pr.heapDelta st)))))), fault)
  | .exitRecord, fault, st =>
    (recordExit fn pr.startTime pr.now pr.memNow pr.cpuLoad pr.sysMem st, fault)
  | .recoverRepanic, fault, st =>
    match fault with
    | none => (st, none)
    | some v => (recordPanic fn v stackText st, some v)

/-- runDefers executes a list of deferred blocks in the given order,
threading the recorder state and the in-flight fault. -/
def runDefers (fn : String) (pr : ProbeInputs) (stackText : String) :
    List DeferBlock → Option String → RecState → RecState × Option String
  | [], fault, st => (st, fault)
  | b :: bs, fault, st =>
    let r := runDeferBlock fn pr stackText b fault st
    runDefers fn pr stackText bs r.2 r.1

/-- unwindExit runs the whole deferred suffix of an instrumented activation
(in LIFO order, as Go does on any exit path, unwinding included). -/
def unwindExit (fn : String) (pr : ProbeInputs) (stackText : String)
    (fault : Option String) (st : RecState) : RecState × Option String :=
  runDefers fn pr stackText (deferRunOrder (preludeStmts [])) fault st

theorem getLast?_modifyTop (f : TraceRecord → TraceRecord) :
    ∀ l, (modifyTop f l).getLast? = (l.getLast?).map f := by
  intro l
  induction l with
  | nil => rfl
  | cons t ts ih =>
    cases ts with
    | nil => rfl
    | cons u us =>
      show (t :: modifyTop f (u :: us)).getLast? = ((t :: u :: us).getLast?).map f
      cases us with
      | nil => rfl
      | cons v vs =>
        rw [show modifyTop f (u :: v :: vs) = u :: modifyTop f (v :: vs) from rfl,
          List.getLast?_cons_cons, List.getLast?_cons_cons]
        exact ih

theorem recordPanic_getLast (fn v s : String) (st : RecState) :
    ∀ t, ((recordPanic fn v s st).callStack).getLast? = some t →
      t.panicValue = some v ∧ t.stackTrace = s := by
  intro t ht
  have : (recordPanic fn v s st).callStack =
      modifyTop (fun r => { r with panicValue := some v, stackTrace := s }) st.callStack := rfl
  rw [this, getLast?_modifyTop] at ht
  obtain ⟨u, _, hut⟩ := Option.map_eq_some'.1 ht
  rw [← hut]
  exact ⟨rfl, rfl⟩

/-- C5 counterexample: run the full deferred exit path of a single top-level
activation (`main`, entered once) that is unwinding with fault value
`"boom"`.  The fault is re-raised unchanged, but NO stored record carries
the fault value or stack trace: the activation's own record was already
popped and appended — without panic fields — by the exit defer before the
recovery block ran, and the recovery block's `RecordPanic` found an empty
stack and recorded nothing. -/
theorem recovery_records_nothing_top_level :
    (unwindExit "main" {} "trace!" (some "boom") (run [.enter "main" 0 0])).2 = some "boom" ∧
    ((unwindExit "main" {} "trace!" (some "boom")
        (run [.enter "main" 0 0])).1.traceRecords.map (·.panicValue)) = [none] ∧
    (unwindExit "main" {} "trace!" (some "boom") (run [.enter "main" 0 0])).1.callStack = [] := by
  refine ⟨rfl, ?_, ?_⟩ <;> decide

/-- C5 amended: on every faulting exit path the recovery block re-raises the
identical fault value unchanged (the fault still reaches the caller), and it
records the fault value and the captured stack text on the stack top at the
moment it runs — which, the exit defer having already popped and appended
the activation's own record, is the caller's record when one exists and
nothing at all for a top-level activation. -/
theorem unwindExit_repanics (fn : String) (pr : ProbeInputs) (stackText : String)
    (v : String) (st : RecState) :
    (unwindExit fn pr stackText (some v) st).2 = some v ∧
    ∀ t, ((unwindExit fn pr stackText (some v) st).1.callStack).getLast? = some t →
      t.panicValue = some v ∧ t.stackTrace = stackText := by
  constructor
  · rfl
  · intro t ht
    exact recordPanic_getLast fn v stackText _ t ht

/-- Witness for `unwindExit_repanics`: a nested activation `f` under `main`
faults; the re-raised fault is `"boom"` and the caller's record (`main`,
now the stack top) carries the fault value and stack text. -/
theorem unwindExit_repanics_witness :
    (unwindExit "f" {} "trace!" (some "boom")
      (run [.enter "main" 0 0, .enter "f" 1 0])).2 = some "boom" ∧
    ({ uniqueID := 1, functionName := "main", panicValue := some "boom",
       stackTrace := "trace!" } : TraceRecord).panicValue = some "boom" ∧
    ({ uniqueID := 1, functionName := "main", panicValue := some "boom",
       stackTrace := "trace!" } : TraceRecord).stackTrace = "trace!" := by
  have h := unwindExit_repanics "f" {} "trace!" "boom" (run [.enter "main" 0 0, .enter "f" 1 0])
  have h2 := h.2
    { uniqueID := 1, functionName := "main", panicValue := some "boom",
      stackTrace := "trace!" }
    (by decide)
  exact ⟨h.1, h2.1, h2.2⟩

/-! Return-statement rewrite.  The statement/expression fragment of Go that
`transformReturnsInStmt` traverses (blocks, `if` with optional `else`,
`for`, `return`, and simple statements) is deeply embedded; expressions are
identigiers, literals, binary operations and call expressions, which is the
sub-grammar the rewrite inspects (`*ast.CallExpr`, `*ast.Ident` named
`nil`).  Values are pure; the semantics below is used to compare the values
returned by the original and the rewritten body. -/

/-- Value is a runtime value of the embedded fragment. -/
inductive Value where
  | intV (n : Int)
  | strV (s : String)
  | boolV (b : Bool)
  | nilV
deriving Repr, DecidableEq

/-- BinOp is a binary operator of the embedded fragment. -/
inductive BinOp where
  | add
  | sub
  | lt
  | eqOp
deriving Repr, DecidableEq

/-- Expr is an expression of the embedded fragment.  `var` covers
`*ast.Ident` (the predeclared `nil` is the identifier named "nil", as in
`go/ast`); `call` covers `*ast.CallExpr`. -/
inductive Expr where
  | var (x : String)
  | lit (v : Value)
  | bin (op : BinOp) (a b : Expr)
  | call (f : String) (args : List Expr)
deriving Repr

/-- Stmt is a statement of the embedded fragment, mirroring the cases of the
`switch` in `transformReturnsInStmt`: `*ast.BlockStmt`, `*ast.IfStmt` (body
and optional else), `*ast.ForStmt` (body), `*ast.ReturnStmt`, and the
default case (simple statements: assignment and expression statement). -/
inductive Stmt where
  | assign (x : String) (e : Expr)
  | exprS (e : Expr)
  | ifS (c : Expr) (thn : Stmt) (els : Option Stmt)
  | forS (c : Expr) (body : Stmt)
  | retS (es : List Expr)
  | block (l : List Stmt)
deriving Repr

/-- digitChr renders one decimal digit. -/
def digitChr (d : Nat) : Char :=
  match d with
  | 0 => '0' | 1 => '1' | 2 => '2' | 3 => '3' | 4 => '4'
  | 5 => '5' | 6 => '6' | 7 => '7' | 8 => '8' | _ => '9'

/-- decCharsAux renders a natural number in decimal (most significant digit
first) with a structural fuel bound; any fuel above the number itself is
enough. -/
def decCharsAux : Nat → Nat → List Char
  | 0, _ => []
  | f + 1, n =>
    if n < 10 then [digitChr n]
    else decCharsAux f (n / 10) ++ [digitChr (n % 10)]

/-- decChars renders a natural number in decimal, most significant digit
first; it models the `%d` of `fmt.Sprintf("_ret%d", i)`. -/
def decChars (n : Nat) : List Char := decCharsAux (n + 1) n

/-- retName is the temporary variable name `fmt.Sprintf("_ret%d", i)` used
by `transformReturnStmt`. -/
def retName (i : Nat) : String := String.mk ('_' :: 'r' :: 'e' :: 't' :: decChars i)

/-- valOfChars reads a decimal digit string back as a number. -/
def valOfChars (l : List Char) : Nat := l.foldl (fun a c => a * 10 + (c.toNat - 48)) 0

theorem valOf_decCharsAux : ∀ f n, n < f → valOfChars (decCharsAux f n) = n := by
  intro f
  induction f with
  | zero => intro n h; omega
  | succ f ih =>
    intro n h
    have hd : ∀ d, d < 10 → (digitChr d).toNat - 48 = d := by decide
    by_cases h10 : n < 10
    · rw [decCharsAux, if_pos h10]
      simp [valOfChars, hd n h10]
    · rw [decCharsAux, if_neg h10]
      have hdiv : n / 10 < n := Nat.div_lt_self (by omega) (by omega)
      have hih := ih (n / 10) (by omega)
      have hd' := hd (n % 10) (Nat.mod_lt _ (by omega))
      simp only [valOfChars, List.foldl_append] at hih ⊢
      simp only [List.foldl_cons, List.foldl_nil]
      rw [hih, hd']
      omega

theorem valOf_decChars (n : Nat) : valOfChars (decChars n) = n :=
  valOf_decCharsAux (n + 1) n (Nat.lt_succ_self n)

theorem retName_injective {i j : Nat} (h : retName i = retName j) : i = j := by
  have hchars : decChars i = decChars j := by
    have := congrArg String.data h
    simpa [retName] using this
  have hv := valOf_decChars i
  rw [hchars, valOf_decChars j] at hv
  omega

/-- isCallExpr mirrors the `if _, ok := expr.(*ast.CallExpr); ok` check. -/
def isCallExpr : Expr → Bool
  | .call _ _ => true
  | _ => false

/-- isNilIdent mirrors the `if ident, ok := expr.(*ast.Ident); ok &&
ident.Name == "nil"` check. -/
def isNilIdent : Expr → Bool
  | .var x => x = "nil"
  | _ => false

/-- tempVarList is the list of temporary identifiers `_ret0 .. _ret(k-1)`
(`newIdents` in `transformReturnStmt`). -/
def tempVarList (k : Nat) : List Expr := (List.range k).map (fun i => .var (retName i))

/-- transformReturnStmt mirrors the Go function of the same name: bind each
result expression to `_reti` in order, call `tracer.RecordReturn` with the
function-name literal and the temporaries, then return the temporaries, all
wrapped in one block. -/
def transformReturnStmt (functionName : String) (es : List Expr) : Stmt :=
  .block
    ((es.enum.map (fun p => Stmt.assign (retName p.1) p.2)) ++
     [.exprS (.call "tracer.RecordReturn" (.lit (.strV functionName) :: tempVarList es.length)),
      .retS (tempVarList es.length)])

mutual

/-- transformReturnsInStmt mirrors the Go function of the same name: recurse
into blocks, if-bodies with their optional else, and for-bodies; leave a
return untouched as soon as SOME result is a call expression or the `nil`
identifier (the Go loop returns early on the first such result), otherwise
rewrite it with `transformReturnStmt`; leave every other statement alone. -/
def transformReturnsInStmt (functionName : String) : Stmt → Stmt
  | .block l => .block (transformReturnsInBlock functionName l)
  | .ifS c t els =>
    .ifS c (transformReturnsInStmt functionName t)
      (match els with
       | none => none
       | some s => some (transformReturnsInStmt functionName s))
  | .forS c b => .forS c (transformReturnsInStmt functionName b)
  | .retS es =>
    if es.any (fun e => isCallExpr e || isNilIdent e) then .retS es
    else transformReturnStmt functionName es
  | .assign x e => .assign x e
  | .exprS e => .exprS e

/-- transformReturnsInBlock mirrors the Go function of the same name:
transform each statement of a block in place. -/
def transformReturnsInBlock (functionName : String) : List Stmt → List Stmt
  | [] => []
  | s :: rest => transformReturnsInStmt functionName s :: transformReturnsInBlock functionName rest

end

theorem transformReturnsInBlock_eq_map (functionName : String) :
    ∀ l, transformReturnsInBlock functionName l = l.map (transformReturnsInStmt functionName) := by
  intro l
  induction l with
  | nil => rfl
  | cons s rest ih => simp [transformReturnsInBlock, ih]

/-- Env is a variable environment; assignment shadows by consing, and a
lookup takes the newest binding.  (Go's block scoping never matters for the
properties proved here: the rewritten block ends in a `return`.) -/
def Env : Type := List (String × Value)

/-- evalBin evaluates a binary operator; ill-typed combinations yield `nil`
(the embedded programs of interest are well typed). -/
def evalBin : BinOp → Value → Value → Value
  | .add, .intV a, .intV b => .intV (a + b)
  | .sub, .intV a, .intV b => .intV (a - b)
  | .lt, .intV a, .intV b => .boolV (decide (a < b))
  | .eqOp, a, b => .boolV (a = b)
  | _, _, _ => .nilV

mutual

/-- evalExpr evaluates a pure expression; `F` interprets call expressions as
pure functions of their argument values (the recorder's own calls have no
effect on program values), and an unbound identifier — in particular the
predeclared `nil` — evaluates to `nil`. -/
def evalExpr (F : String → List Value → Value) (env : Env) : Expr → Value
  | .var x => (List.lookup x env).getD .nilV
  | .lit v => v
  | .bin op a b => evalBin op (evalExpr F env a) (evalExpr F env b)
  | .call f args => F f (evalArgs F env args)

/-- evalArgs evaluates a call's arguments in order. -/
def evalArgs (F : String → List Value → Value) (env : Env) : List Expr → List Value
  | [] => []
  | e :: es => evalExpr F env e :: evalArgs F env es

end

theorem evalArgs_eq_map (F : String → List Value → Value) (env : Env) :
    ∀ es, evalArgs F env es = es.map (evalExpr F env) := by
  intro es
  induction es with
  | nil => rfl
  | cons e rest ih => simp [evalArgs, ih]

/-- Outcome of executing a statement: fall through with an updated
environment, or return with a list of values. -/
inductive Outcome where
  | next (env : List (String × Value))
  | ret (vs : List Value)
deriving Repr

mutual

/-- execStmt executes one statement with the given loop fuel; `none` means
the fuel ran out.  Fuel is consumed only when a loop iterates, so the
rewrite (which adds no loops) preserves outcomes at equal fuel. -/
def execStmt (F : String → List Value → Value) : Nat → Stmt → Env → Option Outcome
  | _, .assign x e, env => some (.next ((x, evalExpr F env e) :: env))
  | _, .exprS _, env => some (.next env)
  | fuel, .ifS c t els, env =>
    if evalExpr F env c = .boolV true then execStmt F fuel t env
    else
      match els with
      | none => some (.next env)
      | some s => execStmt F fuel s env
  | 0, .forS c b, env =>
    if evalExpr F env c = .boolV true then
      match execStmt F 0 b env with
      | some (.next _) => none
      | some (.ret vs) => some (.ret vs)
      | none => none
    else some (.next env)
  | f + 1, .forS c b, env =>
    if evalExpr F env c = .boolV true then
      match execStmt F (f + 1) b env with
      | some (.next env') => execStmt F f (.forS c b) env'
      | some (.ret vs) => some (.ret vs)
      | none => none
    else some (.next env)
  | _, .retS es, env => some (.ret (es.map (evalExpr F env)))
  | fuel, .block l, env => execBlock F fuel l env
termination_by fuel s _ => (fuel, sizeOf s)

/-- execBlock executes the statements of a block in order, stopping at the
first `return` (or when fuel runs out). -/
def execBlock (F : String → List Value → Value) : Nat → List Stmt → Env → Option Outcome
  | _, [], env => some (.next env)
  | fuel, s :: rest, env =>
    match execStmt F fuel s env with
    | some (.next env') => execBlock F fuel rest env'
    | some (.ret vs) => some (.ret vs)
    | none => none
termination_by fuel l _ => (fuel, sizeOf l)

end

mutual

/-- exprVars lists the identifiers occurring in an expression. -/
def exprVars : Expr → List String
  | .var x => [x]
  | .lit _ => []
  | .bin _ a b => exprVars a ++ exprVars b
  | .call _ args => exprVarsList args

/-- exprVarsList lists the identifiers occurring in an expression list. -/
def exprVarsList : List Expr → List String
  | [] => []
  | e :: es => exprVars e ++ exprVarsList es

end

mutual

theorem evalExpr_insert (F : String → List Value → Value) (x : String) (v : Value) :
    ∀ (e : Expr) (env : Env), x ∉ exprVars e →
      evalExpr F ((x, v) :: env) e = evalExpr F env e
  | .var y, env, h => by
    have hxy : x ≠ y := by simpa [exprVars] using h
    have hb : (y == x) = false := beq_eq_false_iff_ne.2 (Ne.symm hxy)
    simp [evalExpr, List.lookup, hb]
  | .lit w, _, _ => rfl
  | .bin op a b, env, h => by
    have ha : x ∉ exprVars a := fun hm => h (by simp [exprVars]; exact Or.inl hm)
    have hb : x ∉ exprVars b := fun hm => h (by simp [exprVars]; exact Or.inr hm)
    simp [evalExpr, evalExpr_insert F x v a env ha, evalExpr_insert F x v b env hb]
  | .call f args, env, h => by
    have ha : x ∉ exprVarsList args := by simpa [exprVars] using h
    simp [evalExpr, evalArgs_insert F x v args env ha]

theorem evalArgs_insert (F : String → List Value → Value) (x : String) (v : Value) :
    ∀ (es : List Expr) (env : Env), x ∉ exprVarsList es →
      evalArgs F ((x, v) :: env) es = evalArgs F env es
  | [], _, _ => rfl
  | e :: es, env, h => by
    have h1 : x ∉ exprVars e := fun hm => h (by simp [exprVarsList]; exact Or.inl hm)
    have h2 : x ∉ exprVarsList es := fun hm => h (by simp [exprVarsList]; exact Or.inr hm)
    simp [evalArgs, evalExpr_insert F x v e env h1, evalArgs_insert F x v es env h2]

end

/-- FreshFor k e says the rewrite's temporary names `_ret0 .. _ret(k-1)` do
not occur in `e`, so binding them cannot change the value of `e`. -/
def FreshFor (k : Nat) (e : Expr) : Prop := ∀ i < k, retName i ∉ exprVars e

/-- bindVals is the environment produced by the temporary bindings
`_retj := e_j` of a rewritten return, with each right-hand side evaluated in
the pre-binding environment `env0`. -/
def bindVals (F : String → List Value → Value) (env0 : Env) : Nat → List Expr → Env → Env
  | _, [], env => env
  | j, e :: rest, env => bindVals F env0 (j + 1) rest ((retName j, evalExpr F env0 e) :: env)

theorem lookup_bindVals_skip (F : String → List Value → Value) (env0 : Env) :
    ∀ (es : List Expr) (j : Nat) (env : Env) (x : String),
      (∀ i, i < es.length → x ≠ retName (j + i)) →
      List.lookup x (bindVals F env0 j es env) = List.lookup x env
  | [], _, _, _, _ => rfl
  | e :: es, j, env, x, hx => by
    show List.lookup x (bindVals F env0 (j + 1) es ((retName j, evalExpr F env0 e) :: env)) = _
    rw [lookup_bindVals_skip F env0 es (j + 1) _ x (fun i hi => by
      have h := hx (i + 1) (by simpa using Nat.succ_lt_succ hi)
      have : j + (i + 1) = j + 1 + i := by omega
      rw [this] at h
      exact h)]
    have h0 : x ≠ retName j := by
      have := hx 0 (by simp)
      simpa using this
    simp [List.lookup, beq_eq_false_iff_ne.2 h0]

theorem lookup_bindVals (F : String → List Value → Value) (env0 : Env) :
    ∀ (es : List Expr) (j m : Nat) (env : Env) (hm : m < es.length),
      List.lookup (retName (j + m)) (bindVals F env0 j es env) =
        some (evalExpr F env0 (es.get ⟨m, hm⟩))
  | e :: es, j, 0, env, hm => by
    show List.lookup (retName (j + 0)) (bindVals F env0 (j + 1) es ((retName j, evalExpr F env0 e) :: env)) = _
    rw [lookup_bindVals_skip F env0 es (j + 1) _ _ (fun i hi hEq => by
      have := retName_injective hEq
      omega)]
    rw [Nat.add_zero]
    simp [List.lookup]
  | e :: es, j, m + 1, env, hm => by
    show List.lookup (retName (j + (m + 1))) (bindVals F env0 (j + 1) es ((retName j, evalExpr F env0 e) :: env)) = _
    have hadd : j + (m + 1) = (j + 1) + m := by omega
    rw [hadd]
    exact lookup_bindVals F env0 es (j + 1) m _ (by simpa using Nat.lt_of_succ_lt_succ hm)

theorem exec_assigns (F : String → List Value → Value) (env0 : Env) (fuel : Nat)
    (rest : List Stmt) (k : Nat) :
    ∀ (es : List Expr) (j : Nat) (env : Env),
      (∀ e ∈ es, FreshFor k e) →
      j + es.length ≤ k →
      (∀ e, FreshFor k e → evalExpr F env e = evalExpr F env0 e) →
      execBlock F fuel ((List.enumFrom j es).map (fun p => Stmt.assign (retName p.1) p.2) ++ rest) env =
        execBlock F fuel rest (bindVals F env0 j es env)
  | [], _, env, _, _, _ => by simp [List.enumFrom, bindVals]
  | e :: es, j, env, hes, hjk, hagree => by
    have he : FreshFor k e := hes e (by simp)
    have hjlt : j < k := by simp at hjk; omega
    show execBlock F fuel
      (Stmt.assign (retName j) e :: ((List.enumFrom (j + 1) es).map (fun p => Stmt.assign (retName p.1) p.2) ++ rest)) env = _
    have hstep : execStmt F fuel (Stmt.assign (retName j) e) env =
        some (.next ((retName j, evalExpr F env0 e) :: env)) := by
      simp [execStmt, hagree e he]
    simp only [execBlock, hstep]
    exact exec_assigns F env0 fuel rest k es (j + 1)
      ((retName j, evalExpr F env0 e) :: env)
      (fun e' he' => hes e' (by simp [he']))
      (by simp at hjk ⊢; omega)
      (fun e' hf => by
        rw [evalExpr_insert F (retName j) (evalExpr F env0 e) e' env (hf j hjlt)]
        exact hagree e' hf)

theorem eval_temps (F : String → List Value → Value) (env0 : Env)
    (es : List Expr) (env' : Env)
    (hlook : ∀ m (hm : m < es.length),
      List.lookup (retName m) env' = some (evalExpr F env0 (es.get ⟨m, hm⟩))) :
    (tempVarList es.length).map (evalExpr F env') = es.map (evalExpr F env0) := by
  apply List.ext_getElem
  · simp [tempVarList]
  · intro m h1 h2
    have hm : m < es.length := by simpa using h2
    simp only [tempVarList, List.getElem_map, List.getElem_range]
    rw [show evalExpr F env' (.var (retName m)) = (List.lookup (retName m) env').getD .nilV from rfl]
    rw [hlook m hm]
    simp [List.get_eq_getElem]

theorem exec_transformReturnStmt (F : String → List Value → Value) (fname : String)
    (fuel : Nat) (es : List Expr) (env : Env)
    (hfresh : ∀ e ∈ es, FreshFor es.length e) :
    execStmt F fuel (transformReturnStmt fname es) env = some (.ret (es.map (evalExpr F env))) := by
  have hblock : execStmt F fuel (transformReturnStmt fname es) env =
      execBlock F fuel
        ((List.enumFrom 0 es).map (fun p => Stmt.assign (retName p.1) p.2) ++
         [.exprS (.call "tracer.RecordReturn" (.lit (.strV fname) :: tempVarList es.length)),
          .retS (tempVarList es.length)]) env := by
    rw [transformReturnStmt]
    simp only [execStmt]
    rw [show es.enum = List.enumFrom 0 es from rfl]
  rw [hblock]
  rw [exec_assigns F env fuel _ es.length es 0 env hfresh (by omega) (fun _ _ => rfl)]
  have hlook : ∀ m (hm : m < es.length),
      List.lookup (retName m) (bindVals F env 0 es env) =
        some (evalExpr F env (es.get ⟨m, hm⟩)) := by
    intro m hm
    have := lookup_bindVals F env es 0 m env hm
    rwa [Nat.zero_add] at this
  simp only [execBlock, execStmt]
  rw [eval_temps F env es (bindVals F env 0 es env) hlook]

mutual

/-- retFresh checks that no return statement reachable in a statement uses
the rewrite's reserved temporary names `_ret0 .. _ret(k-1)` (k the return's
own arity) in its result expressions. -/
def retFresh : Stmt → Bool
  | .assign _ _ => true
  | .exprS _ => true
  | .ifS _ t els => retFresh t && (match els with | none => true | some s => retFresh s)
  | .forS _ b => retFresh b
  | .retS es =>
    es.all (fun e => (List.range es.length).all (fun i => !((exprVars e).contains (retName i))))
  | .block l => retFreshList l

/-- retFreshList checks `retFresh` on each statement of a block. -/
def retFreshList : List Stmt → Bool
  | [] => true
  | s :: rest => retFresh s && retFreshList rest

end

theorem retFresh_ret_freshFor {es : List Expr}
    (h : retFresh (.retS es) = true) : ∀ e ∈ es, FreshFor es.length e := by
  intro e he i hi
  rw [show retFresh (.retS es) =
    es.all (fun e => (List.range es.length).all (fun i => !((exprVars e).contains (retName i))))
    from rfl] at h
  rw [List.all_eq_true] at h
  have h1 := h e he
  rw [List.all_eq_true] at h1
  have h2 := h1 i (List.mem_range.2 hi)
  simp only [Bool.not_eq_true'] at h2
  simpa using h2

mutual

theorem execStmt_transform_aux (F : String → List Value → Value) (fname : String) :
    ∀ (fuel : Nat) (s : Stmt) (env : Env), retFresh s = true →
      execStmt F fuel (transformReturnsInStmt fname s) env = execStmt F fuel s env
  | _, .assign x e, _, _ => rfl
  | _, .exprS e, _, _ => rfl
  | fuel, .ifS c t none, env, h => by
    have ht : retFresh t = true := by simpa [retFresh] using h
    show execStmt F fuel (.ifS c (transformReturnsInStmt fname t) none) env = _
    by_cases hc : evalExpr F env c = .boolV true
    · simp only [execStmt, if_pos hc]
      exact execStmt_transform_aux F fname fuel t env ht
    · simp only [execStmt, if_neg hc]
  | fuel, .ifS c t (some s), env, h => by
    have h' := h
    simp only [retFresh, Bool.and_eq_true] at h'
    show execStmt F fuel
      (.ifS c (transformReturnsInStmt fname t) (some (transformReturnsInStmt fname s))) env = _
    by_cases hc : evalExpr F env c = .boolV true
    · simp only [execStmt, if_pos hc]
      exact execStmt_transform_aux F fname fuel t env h'.1
    · simp only [execStmt, if_neg hc]
      exact execStmt_transform_aux F fname fuel s env h'.2
  | fuel, .forS c b, env, h => by
    have hb : retFresh b = true := by simp only [retFresh] at h; exact h
    show execStmt F fuel (.forS c (transformReturnsInStmt fname b)) env = _
    by_cases hc : evalExpr F env c = .boolV true
    · cases fuel with
      | zero =>
        simp only [execStmt, if_pos hc]
        rw [execStmt_transform_aux F fname 0 b env hb]
      | succ f =>
        simp only [execStmt, if_pos hc]
        rw [execStmt_transform_aux F fname (f + 1) b env hb]
        cases hex : execStmt F (f + 1) b env with
        | none => rfl
        | some o =>
          cases o with
          | ret vs => rfl
          | next env' =>
            exact execStmt_transform_aux F fname f (.forS c b) env' h
    · cases fuel with
      | zero => simp only [execStmt, if_neg hc]
      | succ f => simp only [execStmt, if_neg hc]
  | fuel, .retS es, env, h => by
    by_cases hany : es.any (fun e => isCallExpr e || isNilIdent e) = true
    · rw [show transformReturnsInStmt fname (.retS es) = .retS es by
        rw [transformReturnsInStmt, if_pos hany]]
    · rw [show transformReturnsInStmt fname (.retS es) = transformReturnStmt fname es by
        rw [transformReturnsInStmt, if_neg hany]]
      rw [exec_transformReturnStmt F fname fuel es env (retFresh_ret_freshFor h)]
      simp only [execStmt]
  | fuel, .block l, env, h => by
    have hl : retFreshList l = true := by simp only [retFresh] at h; exact h
    show execStmt F fuel (.block (transformReturnsInBlock fname l)) env = _
    simp only [execStmt]
    exact execBlock_transform_aux F fname fuel l env hl
termination_by fuel s _ _ => (fuel, sizeOf s)
decreasing_by
  all_goals simp_wf
  all_goals rw [Prod.lex_iff]
  all_goals simp
  all_goals omega

theorem execBlock_transform_aux (F : String → List Value → Value) (fname : String) :
    ∀ (fuel : Nat) (l : List Stmt) (env : Env), retFreshList l = true →
      execBlock F fuel (transformReturnsInBlock fname l) env = execBlock F fuel l env
  | _, [], _, _ => rfl
  | fuel, s :: rest, env, h => by
    have hparts := h
    simp only [retFreshList, Bool.and_eq_true] at hparts
    show execBlock F fuel (transformReturnsInStmt fname s :: transformReturnsInBlock fname rest) env = _
    simp only [execBlock]
    rw [execStmt_transform_aux F fname fuel s env hparts.1]
    cases hex : execStmt F fuel s env with
    | none => rfl
    | some o =>
      cases o with
      | ret vs => rfl
      | next env' => exact execBlock_transform_aux F fname fuel rest env' hparts.2
termination_by fuel l _ _ => (fuel, sizeOf l)
decreasing_by
  all_goals simp_wf
  all_goals rw [Prod.lex_iff]
  all_goals simp
  all_goals omega

end

/-- C1 amended: the rewrite maps well-formed syntax trees to well-formed
syntax trees by construction, and for every function body that does not use
the rewrite's reserved temporary names `_ret0 .. _ret(k-1)` in the result
expressions of a k-result return, the rewritten body produces exactly the
same outcome — in particular the same returned values — as the original
body, at every fuel and in every environment. -/
theorem rewrite_preserves_returned_values (F : String → List Value → Value)
    (fname : String) (fuel : Nat) (s : Stmt) (env : Env) (h : retFresh s = true) :
    execStmt F fuel (transformReturnsInStmt fname s) env = execStmt F fuel s env :=
  execStmt_transform_aux F fname fuel s env h

/-- Witness for `rewrite_preserves_returned_values` on `return x, 2`. -/
theorem rewrite_preserves_returned_values_witness :
    retFresh (.retS [.var "x", .lit (.intV 2)]) = true ∧
    execStmt (fun _ _ => Value.nilV) 1
        (transformReturnsInStmt "f" (.retS [.var "x", .lit (.intV 2)])) [("x", .intV 7)] =
      execStmt (fun _ _ => Value.nilV) 1 (.retS [.var "x", .lit (.intV 2)]) [("x", .intV 7)] :=
  ⟨by decide, rewrite_preserves_returned_values (fun _ _ => Value.nilV) "f" 1
    (.retS [.var "x", .lit (.intV 2)]) [("x", .intV 7)] (by decide)⟩

/-- C1 counterexample: the rewritten form of `return 1, _ret0` binds the
fixed temporary `_ret0` before evaluating the second result, capturing the
program's own variable `_ret0`: the original returns (1, 5) in an
environment where `_ret0` is 5, the rewritten body returns (1, 1). -/
theorem rewrite_changes_captured_return_value :
    execStmt (fun _ _ => Value.nilV) 1
        (.retS [.lit (.intV 1), .var "_ret0"]) [("_ret0", .intV 5)] =
      some (.ret [.intV 1, .intV 5]) ∧
    execStmt (fun _ _ => Value.nilV) 1
        (transformReturnsInStmt "f" (.retS [.lit (.intV 1), .var "_ret0"]))
        [("_ret0", .intV 5)] =
      some (.ret [.intV 1, .intV 1]) := by
  constructor
  · simp [execStmt, evalExpr, List.lookup]
  · have htr : transformReturnsInStmt "f" (.retS [.lit (.intV 1), .var "_ret0"]) =
        .block [.assign "_ret0" (.lit (.intV 1)), .assign "_ret1" (.var "_ret0"),
          .exprS (.call "tracer.RecordReturn" [.lit (.strV "f"), .var "_ret0", .var "_ret1"]),
          .retS [.var "_ret0", .var "_ret1"]] := rfl
    have e00 : ("_ret0" == "_ret0") = true := by decide
    have e11 : ("_ret1" == "_ret1") = true := by decide
    have e10 : ("_ret1" == "_ret0") = false := by decide
    rw [htr]
    simp [execStmt, execBlock, evalExpr, List.lookup, e00, e11, e10]

mutual

/-- retStmtsIn collects the result lists of all return statements reachable
through the constructs the rewrite traverses (blocks, if with optional else,
for bodies). -/
def retStmtsIn : Stmt → List (List Expr)
  | .assign _ _ => []
  | .exprS _ => []
  | .ifS _ t els => retStmtsIn t ++ (match els with | none => [] | some s => retStmtsIn s)
  | .forS _ b => retStmtsIn b
  | .retS es => [es]
  | .block l => retStmtsInList l

/-- retStmtsInList collects return result lists from each statement of a
block. -/
def retStmtsInList : List Stmt → List (List Expr)
  | [] => []
  | s :: rest => retStmtsIn s ++ retStmtsInList rest

end

theorem retStmtsInList_append :
    ∀ (a b : List Stmt), retStmtsInList (a ++ b) = retStmtsInList a ++ retStmtsInList b := by
  intro a b
  induction a with
  | nil => rfl
  | cons s rest ih => simp [retStmtsInList, ih]

theorem retStmtsInList_assigns (ps : List (Nat × Expr)) :
    retStmtsInList (ps.map (fun p => Stmt.assign (retName p.1) p.2)) = [] := by
  induction ps with
  | nil => rfl
  | cons p rest ih => simp [retStmtsInList, retStmtsIn, ih]

theorem tempVarList_length (k : Nat) : (tempVarList k).length = k := by
  simp [tempVarList]

theorem retStmtsIn_transformReturnStmt (fname : String) (es : List Expr) :
    retStmtsIn (transformReturnStmt fname es) = [tempVarList es.length] := by
  rw [transformReturnStmt]
  rw [show retStmtsIn (.block ((es.enum.map (fun p => Stmt.assign (retName p.1) p.2)) ++
    [.exprS (.call "tracer.RecordReturn" (.lit (.strV fname) :: tempVarList es.length)),
     .retS (tempVarList es.length)])) =
    retStmtsInList ((es.enum.map (fun p => Stmt.assign (retName p.1) p.2)) ++
    [.exprS (.call "tracer.RecordReturn" (.lit (.strV fname) :: tempVarList es.length)),
     .retS (tempVarList es.length)]) from rfl]
  rw [retStmtsInList_append, retStmtsInList_assigns]
  rfl

theorem untouched_iff (fname : String) (es : List Expr) :
    transformReturnsInStmt fname (.retS es) = .retS es ↔
      es.any (fun e => isCallExpr e || isNilIdent e) = true := by
  constructor
  · intro h
    by_cases hany : es.any (fun e => isCallExpr e || isNilIdent e) = true
    · exact hany
    · rw [show transformReturnsInStmt fname (.retS es) =
        (if es.any (fun e => isCallExpr e || isNilIdent e) then .retS es
         else transformReturnStmt fname es) from rfl, if_neg hany] at h
      rw [transformReturnStmt] at h
      exact absurd h (by simp)
  · intro h
    rw [show transformReturnsInStmt fname (.retS es) =
      (if es.any (fun e => isCallExpr e || isNilIdent e) then .retS es
       else transformReturnStmt fname es) from rfl, if_pos h]

mutual

theorem transformed_returns_aux (fname : String) :
    ∀ (s : Stmt) (es : List Expr), es ∈ retStmtsIn (transformReturnsInStmt fname s) →
      es.any (fun e => isCallExpr e || isNilIdent e) = true ∨ es = tempVarList es.length
  | .assign x e, es, h => by simp [transformReturnsInStmt, retStmtsIn] at h
  | .exprS e, es, h => by simp [transformReturnsInStmt, retStmtsIn] at h
  | .ifS c t none, es, h => by
    rw [show retStmtsIn (transformReturnsInStmt fname (.ifS c t none)) =
      retStmtsIn (transformReturnsInStmt fname t) ++ [] from rfl] at h
    rw [List.append_nil] at h
    exact transformed_returns_aux fname t es h
  | .ifS c t (some s), es, h => by
    rw [show retStmtsIn (transformReturnsInStmt fname (.ifS c t (some s))) =
      retStmtsIn (transformReturnsInStmt fname t) ++
        retStmtsIn (transformReturnsInStmt fname s) from rfl] at h
    rcases List.mem_append.1 h with h' | h'
    · exact transformed_returns_aux fname t es h'
    · exact transformed_returns_aux fname s es h'
  | .forS c b, es, h => by
    rw [show retStmtsIn (transformReturnsInStmt fname (.forS c b)) =
      retStmtsIn (transformReturnsInStmt fname b) from rfl] at h
    exact transformed_returns_aux fname b es h
  | .retS es0, es, h => by
    by_cases hany : es0.any (fun e => isCallExpr e || isNilIdent e) = true
    · rw [show transformReturnsInStmt fname (.retS es0) =
        (if es0.any (fun e => isCallExpr e || isNilIdent e) then .retS es0
         else transformReturnStmt fname es0) from rfl, if_pos hany] at h
      rw [show retStmtsIn (Stmt.retS es0) = [es0] from rfl] at h
      rw [List.mem_singleton.1 h]
      exact Or.inl hany
    · rw [show transformReturnsInStmt fname (.retS es0) =
        (if es0.any (fun e => isCallExpr e || isNilIdent e) then .retS es0
         else transformReturnStmt fname es0) from rfl, if_neg hany,
        retStmtsIn_transformReturnStmt] at h
      have hes : es = tempVarList es0.length := List.mem_singleton.1 h
      right
      rw [hes, tempVarList_length]
  | .block l, es, h => by
    rw [show retStmtsIn (transformReturnsInStmt fname (.block l)) =
      retStmtsInList (transformReturnsInBlock fname l) from rfl] at h
    exact transformed_returns_list_aux fname l es h

theorem transformed_returns_list_aux (fname : String) :
    ∀ (l : List Stmt) (es : List Expr), es ∈ retStmtsInList (transformReturnsInBlock fname l) →
      es.any (fun e => isCallExpr e || isNilIdent e) = true ∨ es = tempVarList es.length
  | [], es, h => by simp [transformReturnsInBlock, retStmtsInList] at h
  | s :: rest, es, h => by
    rw [show retStmtsInList (transformReturnsInBlock fname (s :: rest)) =
      retStmtsIn (transformReturnsInStmt fname s) ++
        retStmtsInList (transformReturnsInBlock fname rest) from rfl] at h
    rcases List.mem_append.1 h with h' | h'
    · exact transformed_returns_aux fname s es h'
    · exact transformed_returns_list_aux fname rest es h'

end

/-- C3 amended: (i) a return statement is left untouched by the rewrite
exactly when AT LEAST ONE of its result expressions is a call expression or
the `nil` identifier (the Go loop returns the statement unchanged on the
first such result; in particular an empty `return` is rewritten); (ii) every
return statement reachable in the rewritten body — through blocks,
conditionals and loop bodies — either has such a call/nil result (left as
written) or is the generated `return _ret0, ..., _ret(k-1)` of a rewritten
block that binds each result to a fresh temporary and records them. -/
theorem return_rewrite_characterization (fname : String) :
    (∀ es, transformReturnsInStmt fname (.retS es) = .retS es ↔
      es.any (fun e => isCallExpr e || isNilIdent e) = true) ∧
    (∀ s es, es ∈ retStmtsIn (transformReturnsInStmt fname s) →
      es.any (fun e => isCallExpr e || isNilIdent e) = true ∨ es = tempVarList es.length) :=
  ⟨untouched_iff fname, transformed_returns_aux fname⟩

/-- Witness for `return_rewrite_characterization` at a retained
call-expression return. -/
theorem return_rewrite_characterization_witness :
    [Expr.call "g" []].any (fun e => isCallExpr e || isNilIdent e) = true ∨
      [Expr.call "g" []] = tempVarList ([Expr.call "g" []]).length :=
  (return_rewrite_characterization "f").2 (.retS [.call "g" []]) [Expr.call "g" []]
    (by
      rw [show retStmtsIn (transformReturnsInStmt "f" (.retS [.call "g" []])) =
        [[Expr.call "g" []]] from rfl]
      exact List.mem_singleton.mpr rfl)

/-- C3 counterexample: `return g(), x` mixes a call expression with a plain
identifier, so NOT every result is a call or `nil`; the rewrite nevertheless
leaves it completely untouched, because the Go loop bails out on the first
call-expression result. -/
theorem mixed_return_left_untouched :
    transformReturnsInStmt "f" (.retS [.call "g" [], .var "x"]) =
      .retS [.call "g" [], .var "x"] ∧
    ([Expr.call "g" [], Expr.var "x"].all (fun e => isCallExpr e || isNilIdent e)) = false :=
  ⟨rfl, rfl⟩

end Tracewrap
